import Mathlib

/-!
Verification of the wf-market-checker polling core (`src/src/__main__.py`,
class `OrderChecker`) against its natural-language specification.

The per-cycle body of `OrderChecker.check_orders`, the acceptance predicate
`OrderChecker.predicate_order`, and the rescheduling loop of
`OrderChecker.schedule_tasks` are embedded shallowly as pure Lean functions.
Effects (console reports, the inter-cycle sleep, the insertion into the
dedup set and the handoff to `accept_order`) are recorded as an ordered
event list; the outcome of each network fetch is an input to the step
function, covering timeouts, non-ok HTTP responses, other transport errors
(which the source does not catch) and parsed successful responses.
-/

namespace WfMarket

/-- `src/src/types.py`, `class Item(NamedTuple)`: a watched item.
Python ints are embedded as `Int`; note the source default
`quantity_min = -1`. -/
structure Item where
  name : String
  price_threshold : Int
  quantity_min : Int := -1
  rank : Option Int := some 5
deriving DecidableEq, Repr

/-- The part of `UserShort` (`src/src/wf_market_checker/models.py`) read by the
acceptance predicate: the seller's `status` string as delivered by the API. -/
structure UserShort where
  status : String
deriving DecidableEq, Repr

/-- The fields of `OrderWithUser` (`src/src/wf_market_checker/models.py`) read
by the polling core: listing id, price in platinum, quantity, and the
embedded seller. -/
structure OrderWithUser where
  id : String
  platinum : Int
  quantity : Int
  user : UserShort
deriving DecidableEq, Repr

/-- `src/src/responses.py`, `class OrdersItemTopData`: the sell and buy sides
of the fetched order book. -/
structure OrdersItemTopData where
  sell : List OrderWithUser
  buy : List OrderWithUser
deriving DecidableEq, Repr

/-- `src/src/responses.py`, `class OrdersItemTopResponse`: `api_version` plus
optional data (the `error` field is never read by the core). -/
structure OrdersItemTopResponse where
  api_version : String
  data : Option OrdersItemTopData
deriving DecidableEq, Repr

/-- The mutable state of an `OrderChecker` instance touched by
`check_orders`: the request counter `self.total` and the dedup set
`self.found_orders_ids` (a Python `set[str]`, embedded as a duplicate-free
list via `List.insert`). -/
structure CheckerState where
  total : Nat
  found_orders_ids : List String
deriving DecidableEq, Repr

/-- `OrderChecker.__init__`: `total = 0`, `found_orders_ids = set()`. -/
def initialState : CheckerState := ⟨0, []⟩

/-- The possible outcomes of one listings fetch
(`self.session.get(request, params=params)` inside the `try` of
`check_orders`), as seen by the cycle body:
* `timeout` — the request raised `asyncio.TimeoutError` (caught at line 154);
* `httpError body` — a response arrived with `not r.ok` (line 151); the
  unparsed body is carried to show it is never looked at;
* `transportError` — any other exception out of the transport (e.g. an
  `aiohttp` connection error), which the `except` clause does not catch;
* `success resp` — an ok response whose JSON validated into
  `OrdersItemTopResponse`. -/
inductive FetchResult where
  | timeout
  | httpError (body : String)
  | transportError
  | success (resp : OrdersItemTopResponse)
deriving DecidableEq, Repr

/-- Observable effects of a cycle, in program order:
`acquire` (entering `self.rate_limiter`), `fetch` (issuing the GET),
`reportError` (`utils.error(...)`), `printAttempts`
(`self.print_number_of_attempts()`, carrying the printed counter),
`insertId` (`self.found_orders_ids.add(...)`), `handoff`
(`await self.accept_order(...)`), and `sleep`
(`await asyncio.sleep(CHECK_INTERVAL)`, carrying the interval). -/
inductive Event where
  | acquire
  | fetch
  | reportError (msg : String)
  | printAttempts (total : Nat)
  | insertId (id : String)
  | handoff (id : String)
  | sleep (interval : ℚ)
deriving DecidableEq, Repr

/-- How a single cycle of the `while True` loop of `check_orders` ends:
`retryNow` (`continue`, no sleep), `sleepRetry` (fell through to the
`asyncio.sleep` before looping), `accepted o` (the completion logic ran and
the loop `break`s), or `raised` (an uncaught exception propagates out of
`check_orders`). -/
inductive CycleOutcome where
  | retryNow
  | sleepRetry
  | accepted (o : OrderWithUser)
  | raised
deriving DecidableEq, Repr

/-- `OrderChecker.predicate_order` (src/src/__main__.py lines 189-202):
the order is suitable iff its id is not in `found_orders_ids`, its
`platinum` is at most the item's `price_threshold`, its `quantity` is at
least the item's `quantity_min`, and its seller's `status` equals
`'ingame'` (the status the source treats as "seller online"). -/
def predicate_order (found_orders_ids : List String) (order : OrderWithUser)
    (item : Item) : Bool :=
  !(found_orders_ids.contains order.id)
    && (order.platinum ≤ item.price_threshold)
    && (order.quantity ≥ item.quantity_min)
    && (order.user.status == "ingame")

/-- The scan `for order in orders_resp.data.sell: if self.predicate_order(...):
found_order = order; break` (lines 169-172): the first suitable order. -/
def findMatch (found_orders_ids : List String) (item : Item) :
    List OrderWithUser → Option OrderWithUser
  | [] => none
  | o :: rest =>
    if predicate_order found_orders_ids o item then some o
    else findMatch found_orders_ids item rest

/-- One iteration of the `while True` loop of `OrderChecker.check_orders`
(src/src/__main__.py lines 144-184), given the outcome of the gated fetch.
Returns the updated checker state, how the iteration ended, and the ordered
list of effects it performed. `interval` is the configured
`CHECK_INTERVAL`. -/
def checkCycle (interval : ℚ) (st : CheckerState) (item : Item)
    (fr : FetchResult) : CheckerState × CycleOutcome × List Event :=
  match fr with
  | .timeout =>
      -- `except asyncio.TimeoutError: utils.error(...); continue`
      (st, .retryNow,
        [.acquire, .fetch,
         .reportError ("Request timed out for " ++ item.name ++ ". Continuing.")])
  | .httpError _ =>
      -- `if not r.ok: continue`
      (st, .retryNow, [.acquire, .fetch])
  | .transportError =>
      -- not caught by the `except` clause: propagates out of check_orders
      (st, .raised, [.acquire, .fetch])
  | .success resp =>
      -- `self.total += 1`
      let st1 : CheckerState := { st with total := st.total + 1 }
      match resp.data with
      | none =>
          -- `if not orders_resp.data: utils.error(...); continue`
          (st1, .retryNow,
            [.acquire, .fetch, .reportError ("No data for " ++ item.name ++ ".")])
      | some data =>
          -- `self.print_number_of_attempts()` then the scan of `data.sell`
          match findMatch st1.found_orders_ids item data.sell with
          | some o =>
              -- `self.found_orders_ids.add(found_order.id)` then
              -- `await self.accept_order(found_order)` then `break`
              ({ st1 with
                  found_orders_ids := st1.found_orders_ids.insert o.id },
               .accepted o,
               [.acquire, .fetch, .printAttempts st1.total,
                .insertId o.id, .handoff o.id])
          | none =>
              -- `await asyncio.sleep(CHECK_INTERVAL)` then loop again
              (st1, .sleepRetry,
               [.acquire, .fetch, .printAttempts st1.total, .sleep interval])

/-- How a whole `check_orders` run ends: `returned it` (the `return item` at
line 187 was reached, after a match), `raised` (an uncaught exception
escaped), or `running` (the supplied fetch outcomes are exhausted with the
loop still going — the run is still live, e.g. until cancellation). -/
inductive RunOutcome where
  | returned (it : Item)
  | raised
  | running
deriving DecidableEq, Repr

/-- `OrderChecker.check_orders` (src/src/__main__.py lines 121-187) driven by
a finite list of fetch outcomes, one per loop iteration: iterate
`checkCycle` until a match breaks the loop (then `return item`) or an
uncaught exception escapes, accumulating the events of every cycle. -/
def check_orders (interval : ℚ) (st : CheckerState) (item : Item) :
    List FetchResult → CheckerState × RunOutcome × List Event
  | [] => (st, .running, [])
  | fr :: rest =>
    match checkCycle interval st item fr with
    | (st', .accepted _, evs) => (st', .returned item, evs)
    | (st', .raised, evs) => (st', .raised, evs)
    | (st', .retryNow, evs) =>
        let r := check_orders interval st' item rest
        (r.1, r.2.1, evs ++ r.2.2)
    | (st', .sleepRetry, evs) =>
        let r := check_orders interval st' item rest
        (r.1, r.2.1, evs ++ r.2.2)

/-- An interleaved execution of the process: a sequence of cycles, each run
by the monitor of some item against the shared `CheckerState` (the scan of
the sell list and the dedup-set insertion are a single synchronous block in
the source, with no `await` between them, so cycles are atomic with respect
to `found_orders_ids`). Returns the final shared state and the concatenated
event stream. -/
def processTrace (interval : ℚ) (st : CheckerState) :
    List (Item × FetchResult) → CheckerState × List Event
  | [] => (st, [])
  | (item, fr) :: rest =>
    let c := checkCycle interval st item fr
    let r := processTrace interval c.1 rest
    (r.1, c.2.2 ++ r.2)

/-- Count of `handoff i` events in an event stream. -/
def countHandoff (i : String) (evs : List Event) : Nat :=
  evs.countP (fun e => e == .handoff i)

/-- Count of `insertId i` events in an event stream. -/
def countInsert (i : String) (evs : List Event) : Nat :=
  evs.countP (fun e => e == .insertId i)

/-- Count of `sleep` events in an event stream. -/
def countSleep (evs : List Event) : Nat :=
  evs.countP (fun e => match e with | .sleep _ => true | _ => false)

/-- Count of `reportError` events in an event stream. -/
def countReport (evs : List Event) : Nat :=
  evs.countP (fun e => match e with | .reportError _ => true | _ => false)

/-- The `await task; add_task(item)` loop of `OrderChecker.schedule_tasks`
(src/src/__main__.py lines 117-119) over the completed tasks of one
wake-up: awaiting each done task yields its returned item and schedules one
fresh `check_orders` task for it; a task that ended in an exception
re-raises at the `await`, aborting the loop (modelled as `none`). Returns
the list of items given to `add_task`, in order. -/
def rescheduleDone : List RunOutcome → Option (List Item)
  | [] => some []
  | .returned it :: rest => (rescheduleDone rest).map (fun l => it :: l)
  | .raised :: _ => none
  | .running :: _ => none

/-- `OrderChecker.run` (src/src/__main__.py line 77):
`AsyncLimiter(max_rate=3, time_period=1)` — the rate bound R shared by all
monitoring tasks. -/
def max_rate : Nat := 3

/-- `OrderChecker.run` (src/src/__main__.py line 77): the rolling window
length T of the shared limiter, in time units. -/
def time_period : ℚ := 1

/-- Modelled from the spec: the internal state of the shared rate limiter.
The implementation in the source is the external `aiolimiter.AsyncLimiter`
library, which is not part of this repository; §4.1 of the spec gives its
contract (at most R granted acquisitions per rolling window of length T,
aggregated across all callers). The state records the times of all granted
acquisitions. -/
structure LimiterState where
  grants : List ℚ
deriving DecidableEq, Repr

/-- Modelled from the spec: one `acquire()` attempt at time `t`. The slot is
granted iff fewer than `R` grants already lie in the rolling window
`(t - T, t]`; a granted acquisition is recorded, a denied one leaves the
state unchanged (the caller would block and retry later). -/
def acquireAt (R : Nat) (T : ℚ) (st : LimiterState) (t : ℚ) :
    Bool × LimiterState :=
  if st.grants.countP (fun g => decide (t - T < g) && decide (g ≤ t)) < R then
    (true, ⟨t :: st.grants⟩)
  else
    (false, st)

/-- Modelled from the spec: a sequence of `acquire()` attempts at the given
times, threaded through the limiter state. -/
def runAcquires (R : Nat) (T : ℚ) (st : LimiterState) : List ℚ → LimiterState
  | [] => st
  | t :: ts => runAcquires R T (acquireAt R T st t).2 ts

/-- The number of granted acquisitions inside the sliding window
`(a, a + T]`. -/
def grantsIn (T : ℚ) (a : ℚ) (st : LimiterState) : Nat :=
  st.grants.countP (fun g => decide (a < g) && decide (g ≤ a + T))

/-- A concrete watched item, as built from configuration:
price ceiling 50 platinum, at least 1 unit, no rank filter. -/
def demoItem : Item := ⟨"mirage_prime_set", 50, 1, none⟩

/-- A listing rejected by the predicate for `demoItem` (price 60 > 50). -/
def overpricedOrder : OrderWithUser := ⟨"A", 60, 1, ⟨"ingame"⟩⟩

/-- A listing accepted by the predicate for `demoItem`
(price 40 ≤ 50, quantity 1 ≥ 1, seller in game). -/
def demoOrder : OrderWithUser := ⟨"B", 40, 1, ⟨"ingame"⟩⟩

/-- A fetched response whose sell side holds a rejected listing followed by
an acceptable one. -/
def demoResponse : OrdersItemTopResponse :=
  ⟨"0.19", some ⟨[overpricedOrder, demoOrder], []⟩⟩

/-- A one-cycle run for `demoItem` ending in a match on `demoOrder`. -/
def demoFetches : List FetchResult := [.success demoResponse]

/-- An interleaved two-cycle trace in which the already-accepted listing
`demoOrder` reappears in a later fetch. -/
def demoTrace : List (Item × FetchResult) :=
  [(demoItem, .success demoResponse), (demoItem, .success demoResponse)]

/-! ### Helper lemmas -/

/-- A suitable order's id is not yet in the dedup set. -/
theorem predicate_order_not_mem {found : List String} {o : OrderWithUser}
    {item : Item} (h : predicate_order found o item = true) :
    o.id ∉ found := by
  simp [predicate_order] at h
  exact h.1.1.1

/-- Characterisation of the sell-list scan: a returned order splits the list
into a prefix of unsuitable orders, the match itself, and a remainder. -/
theorem findMatch_eq_some {found : List String} {item : Item} :
    ∀ {l : List OrderWithUser} {o : OrderWithUser},
      findMatch found item l = some o →
      ∃ l1 l2, l = l1 ++ o :: l2 ∧ predicate_order found o item = true ∧
        ∀ x ∈ l1, predicate_order found x item = false := by
  intro l
  induction l with
  | nil => intro o h; simp [findMatch] at h
  | cons a t ih =>
    intro o h
    by_cases hp : predicate_order found a item = true
    · rw [findMatch, if_pos hp] at h
      obtain rfl : a = o := by injection h
      exact ⟨[], t, rfl, hp, by simp⟩
    · rw [findMatch, if_neg hp] at h
      obtain ⟨l1, l2, hsplit, hpo, hpre⟩ := ih h
      refine ⟨a :: l1, l2, by simp [hsplit], hpo, ?_⟩
      intro x hx
      rcases List.mem_cons.mp hx with rfl | hx'
      · simpa using hp
      · exact hpre x hx'

/-- The dedup set only grows across a cycle. -/
theorem checkCycle_found_mono (interval : ℚ) (st : CheckerState) (item : Item)
    (fr : FetchResult) (i : String) (h : i ∈ st.found_orders_ids) :
    i ∈ (checkCycle interval st item fr).1.found_orders_ids := by
  cases fr with
  | timeout => simpa [checkCycle] using h
  | httpError body => simpa [checkCycle] using h
  | transportError => simpa [checkCycle] using h
  | success resp =>
    obtain ⟨v, data⟩ := resp
    cases data with
    | none => simpa [checkCycle] using h
    | some d =>
      cases hm : findMatch st.found_orders_ids item d.sell with
      | none => simpa [checkCycle, hm] using h
      | some o =>
        simp only [checkCycle, hm]
        exact List.mem_insert_iff.mpr (Or.inr h)

/-- A cycle hands off a given id at most once. -/
theorem checkCycle_countHandoff_le_one (interval : ℚ) (st : CheckerState)
    (item : Item) (fr : FetchResult) (i : String) :
    countHandoff i (checkCycle interval st item fr).2.2 ≤ 1 := by
  cases fr with
  | timeout => simp [checkCycle, countHandoff]
  | httpError body => simp [checkCycle, countHandoff]
  | transportError => simp [checkCycle, countHandoff]
  | success resp =>
    obtain ⟨v, data⟩ := resp
    cases data with
    | none => simp [checkCycle, countHandoff]
    | some d =>
      cases hm : findMatch st.found_orders_ids item d.sell with
      | none => simp [checkCycle, hm, countHandoff]
      | some o =>
        simp [checkCycle, hm, countHandoff, List.countP_cons]
        split <;> omega

/-- A cycle that hands off id `i` starts with `i` outside the dedup set and
ends with `i` inside it. -/
theorem checkCycle_handoff_pos (interval : ℚ) (st : CheckerState) (item : Item)
    (fr : FetchResult) (i : String)
    (h : 0 < countHandoff i (checkCycle interval st item fr).2.2) :
    i ∉ st.found_orders_ids ∧
      i ∈ (checkCycle interval st item fr).1.found_orders_ids := by
  cases fr with
  | timeout => simp [checkCycle, countHandoff] at h
  | httpError body => simp [checkCycle, countHandoff] at h
  | transportError => simp [checkCycle, countHandoff] at h
  | success resp =>
    obtain ⟨v, data⟩ := resp
    cases data with
    | none => simp [checkCycle, countHandoff] at h
    | some d =>
      cases hm : findMatch st.found_orders_ids item d.sell with
      | none => simp [checkCycle, hm, countHandoff] at h
      | some o =>
        simp [checkCycle, hm, countHandoff, List.countP_cons] at h
        obtain ⟨l1, l2, _, hpo, _⟩ := findMatch_eq_some hm
        have hio : i = o.id := by
          by_cases hne : o.id = i
          · exact hne.symm
          · simp [hne] at h
        subst hio
        refine ⟨predicate_order_not_mem hpo, ?_⟩
        simp only [checkCycle, hm]
        exact List.mem_insert_iff.mpr (Or.inl rfl)

/-- Over any interleaved trace of cycles sharing the checker state, a given
id is handed off at most once, and never if it is already recorded. -/
theorem processTrace_handoff (interval : ℚ) (i : String) :
    ∀ (trace : List (Item × FetchResult)) (st : CheckerState),
      (i ∈ st.found_orders_ids →
        countHandoff i (processTrace interval st trace).2 = 0) ∧
      countHandoff i (processTrace interval st trace).2 ≤ 1 := by
  intro trace
  induction trace with
  | nil => intro st; simp [processTrace, countHandoff]
  | cons p rest ih =>
    obtain ⟨item, fr⟩ := p
    intro st
    have hsplit : countHandoff i (processTrace interval st ((item, fr) :: rest)).2
        = countHandoff i (checkCycle interval st item fr).2.2
          + countHandoff i
              (processTrace interval (checkCycle interval st item fr).1 rest).2 := by
      simp [processTrace, countHandoff, List.countP_append]
    constructor
    · intro hmem
      have ha : countHandoff i (checkCycle interval st item fr).2.2 = 0 := by
        by_contra hne
        exact (checkCycle_handoff_pos interval st item fr i
          (Nat.pos_of_ne_zero hne)).1 hmem
      have hb := (ih (checkCycle interval st item fr).1).1
        (checkCycle_found_mono interval st item fr i hmem)
      omega
    · rcases Nat.eq_zero_or_pos
        (countHandoff i (checkCycle interval st item fr).2.2) with hz | hpos
      · have := (ih (checkCycle interval st item fr).1).2
        omega
      · have ha := checkCycle_countHandoff_le_one interval st item fr i
        have hb := (ih (checkCycle interval st item fr).1).1
          (checkCycle_handoff_pos interval st item fr i hpos).2
        omega

/-- Counting with a pointwise-weaker predicate counts no more elements. -/
theorem countP_le_of_imp {α : Type} {p q : α → Bool} :
    ∀ l : List α, (∀ x ∈ l, p x = true → q x = true) →
      l.countP p ≤ l.countP q := by
  intro l
  induction l with
  | nil => simp
  | cons a t ih =>
    intro h
    rw [List.countP_cons, List.countP_cons]
    have ht := ih (fun x hx => h x (List.mem_cons_of_mem a hx))
    by_cases hp : p a = true
    · have hq := h a (List.mem_cons_self a t) hp
      simp [hp, hq]
      omega
    · by_cases hq : q a = true <;> simp [hp, hq] <;> omega

/-- If every grant already recorded precedes every pending attempt, the
attempts are made in nondecreasing time order, and every sliding window of
length `T` holds at most `R` grants, then the same window bound still holds
after all the attempts are processed. -/
theorem runAcquires_window_bound (R : Nat) (T : ℚ) :
    ∀ (ts : List ℚ) (st : LimiterState),
      ts.Pairwise (· ≤ ·) →
      (∀ g ∈ st.grants, ∀ t ∈ ts, g ≤ t) →
      (∀ a, grantsIn T a st ≤ R) →
      ∀ a, grantsIn T a (runAcquires R T st ts) ≤ R := by
  intro ts
  induction ts with
  | nil =>
    intro st _ _ hbound a
    simpa [runAcquires] using hbound a
  | cons t ts ih =>
    intro st hsort hprec hbound a
    obtain ⟨hts, hsort'⟩ := List.pairwise_cons.mp hsort
    by_cases hcnt :
        st.grants.countP (fun g => decide (t - T < g) && decide (g ≤ t)) < R
    · -- the attempt at time `t` is granted
      have hstep : (acquireAt R T st t).2 = ⟨t :: st.grants⟩ := by
        simp [acquireAt, hcnt]
      rw [runAcquires, hstep]
      apply ih ⟨t :: st.grants⟩ hsort'
      · intro g hg t' ht'
        rcases List.mem_cons.mp hg with rfl | hg'
        · exact hts t' ht'
        · exact hprec g hg' t' (List.mem_cons_of_mem t ht')
      · intro b
        simp only [grantsIn, List.countP_cons]
        by_cases hin : (decide (b < t) && decide (t ≤ b + T)) = true
        · have hb : b < t ∧ t ≤ b + T := by simpa using hin
          have hsub :
              st.grants.countP (fun g => decide (b < g) && decide (g ≤ b + T))
                ≤ st.grants.countP
                    (fun g => decide (t - T < g) && decide (g ≤ t)) := by
            apply countP_le_of_imp
            intro g hg hgw
            have hgt : g ≤ t := hprec g hg t (List.mem_cons_self t ts)
            have hbw : b < g ∧ g ≤ b + T := by simpa using hgw
            have h1 : t - T < g := lt_of_le_of_lt (by linarith [hb.2]) hbw.1
            simp [h1, hgt]
          simp only [hin, if_true]
          omega
        · simp only [hin, if_false]
          have := hbound b
          simpa [grantsIn] using this
    · -- the attempt at time `t` is denied; the state is unchanged
      have hstep : (acquireAt R T st t).2 = st := by
        simp [acquireAt, hcnt]
      rw [runAcquires, hstep]
      exact ih st hsort'
        (fun g hg t' ht' => hprec g hg t' (List.mem_cons_of_mem t ht'))
        hbound a

/-- `check_orders` can only hand back the item it was given: the `return
item` at the end of the loop returns the run's own parameter. -/
theorem check_orders_returned (interval : ℚ) (item : Item) :
    ∀ (frs : List FetchResult) (st st' : CheckerState) (it : Item)
      (evs : List Event),
      check_orders interval st item frs = (st', .returned it, evs) →
      it = item := by
  intro frs
  induction frs with
  | nil =>
    intro st st' it evs h
    simp [check_orders] at h
  | cons fr rest ih =>
    intro st st' it evs h
    rcases hc : checkCycle interval st item fr with ⟨st1, oc, evs1⟩
    rw [check_orders, hc] at h
    cases oc with
    | accepted o =>
      simp only [Prod.mk.injEq] at h
      injection h.2.1 with hit
      exact hit.symm
    | raised => simp at h
    | retryNow =>
      rcases hr : check_orders interval st1 item rest with ⟨st2, oc2, evs2⟩
      simp only [hr, Prod.mk.injEq] at h
      rw [h.2.1] at hr
      exact ih st1 st2 it evs2 hr
    | sleepRetry =>
      rcases hr : check_orders interval st1 item rest with ⟨st2, oc2, evs2⟩
      simp only [hr, Prod.mk.injEq] at h
      rw [h.2.1] at hr
      exact ih st1 st2 it evs2 hr

/-! ### Claim theorems -/

/-- C1: over every interleaved sequence of fetch results processed for the
life of the process (starting from `__init__`'s empty `found_orders_ids`),
`accept_order` is invoked at most once per unique listing id, even if a
listing with that id reappears in later cycles or in replacement runs; and
once an id is in the dedup set, no further evaluation ever hands it off. -/
theorem C1_handoff_at_most_once (interval : ℚ)
    (trace : List (Item × FetchResult)) (i : String) :
    countHandoff i (processTrace interval initialState trace).2 ≤ 1 ∧
    ∀ st : CheckerState, i ∈ st.found_orders_ids →
      countHandoff i (processTrace interval st trace).2 = 0 :=
  ⟨(processTrace_handoff interval i trace initialState).2,
   fun st h => (processTrace_handoff interval i trace st).1 h⟩

/-- C1 witness: on a concrete two-cycle trace in which the accepted listing
"B" reappears, it is handed off at most once; and starting with "B" already
recorded, it is never handed off. -/
theorem C1_handoff_at_most_once_witness :
    countHandoff "B" (processTrace 1 initialState demoTrace).2 ≤ 1 ∧
    countHandoff "B" (processTrace 1 ⟨0, ["B"]⟩ demoTrace).2 = 0 :=
  ⟨(C1_handoff_at_most_once 1 demoTrace "B").1,
   (C1_handoff_at_most_once 1 demoTrace "B").2 ⟨0, ["B"]⟩ (by decide)⟩

/-- C2: `predicate_order` holds iff all four conditions hold — the id is
not already in the dedup set, the price is at most the item's
`price_threshold` (inclusive), the quantity is at least the item's
`quantity_min` (inclusive), and the seller's status is the in-game/online
value `'ingame'`; so a listing at exactly the threshold and the minimum
with an online seller is accepted, and failing any one condition rejects. -/
theorem C2_predicate_iff (found : List String) (o : OrderWithUser)
    (item : Item) :
    predicate_order found o item = true ↔
      (o.id ∉ found ∧ o.platinum ≤ item.price_threshold ∧
        item.quantity_min ≤ o.quantity ∧ o.user.status = "ingame") := by
  simp [predicate_order, and_assoc]

/-- C3 counterexample: a single non-timeout transport failure makes the
embedded `check_orders` run end with a propagated exception — neither a
successful match nor external cancellation — refuting "any transport-level
fetch failure is retried and no fetch error propagates out". -/
theorem C3_counterexample_transport_escapes :
    (check_orders 1 initialState demoItem [.transportError]).2.1
      = .raised := rfl

/-- C3 amended: only `asyncio.TimeoutError` is caught and retried
immediately; a cycle ends with a propagated exception exactly when the
fetch fails with a non-timeout transport error. -/
theorem C3_amended_timeout_only_retried (interval : ℚ) (st : CheckerState)
    (item : Item) :
    (checkCycle interval st item .timeout).2.1 = .retryNow ∧
    ∀ fr, (checkCycle interval st item fr).2.1 = .raised ↔
      fr = .transportError := by
  refine ⟨rfl, ?_⟩
  intro fr
  cases fr with
  | timeout => simp [checkCycle]
  | httpError body => simp [checkCycle]
  | transportError => simp [checkCycle]
  | success resp =>
    obtain ⟨v, data⟩ := resp
    cases data with
    | none => simp [checkCycle]
    | some d =>
      cases hm : findMatch st.found_orders_ids item d.sell with
      | none => simp [checkCycle, hm]
      | some o => simp [checkCycle, hm]

/-- C4: whenever a cycle accepts a listing, the id is inserted into the
dedup set strictly before the handoff to `accept_order` (the event list is
exactly acquire, fetch, attempts print, insert, handoff, in that order),
the insertion happens exactly once, and the post state records the id. -/
theorem C4_insert_before_handoff (interval : ℚ) (st : CheckerState)
    (item : Item) (fr : FetchResult) (st' : CheckerState) (o : OrderWithUser)
    (evs : List Event)
    (h : checkCycle interval st item fr = (st', .accepted o, evs)) :
    evs = [.acquire, .fetch, .printAttempts (st.total + 1),
           .insertId o.id, .handoff o.id] ∧
    countInsert o.id evs = 1 ∧
    st'.found_orders_ids = st.found_orders_ids.insert o.id := by
  cases fr with
  | timeout => simp [checkCycle] at h
  | httpError body => simp [checkCycle] at h
  | transportError => simp [checkCycle] at h
  | success resp =>
    obtain ⟨v, data⟩ := resp
    cases data with
    | none => simp [checkCycle] at h
    | some d =>
      cases hm : findMatch st.found_orders_ids item d.sell with
      | none => simp [checkCycle, hm] at h
      | some o' =>
        simp only [checkCycle, hm, Prod.mk.injEq] at h
        obtain ⟨hst, hoc, hevs⟩ := h
        injection hoc with ho
        subst ho
        subst hevs
        subst hst
        refine ⟨rfl, ?_, rfl⟩
        simp [countInsert, List.countP_cons]

/-- C4 witness: the concrete accepting cycle for `demoItem` and
`demoResponse` has its insert event strictly before its handoff event. -/
theorem C4_insert_before_handoff_witness :
    [Event.acquire, Event.fetch, Event.printAttempts 1,
     Event.insertId demoOrder.id, Event.handoff demoOrder.id]
      = [Event.acquire, Event.fetch, Event.printAttempts (initialState.total + 1),
         Event.insertId demoOrder.id, Event.handoff demoOrder.id] ∧
    countInsert demoOrder.id
      [Event.acquire, Event.fetch, Event.printAttempts 1,
       Event.insertId demoOrder.id, Event.handoff demoOrder.id] = 1 ∧
    (⟨1, ["B"]⟩ : CheckerState).found_orders_ids
      = initialState.found_orders_ids.insert demoOrder.id := by
  have h := C4_insert_before_handoff 1 initialState demoItem
    (.success demoResponse) ⟨1, ["B"]⟩ demoOrder
    [Event.acquire, Event.fetch, Event.printAttempts 1,
     Event.insertId demoOrder.id, Event.handoff demoOrder.id] rfl
  exact ⟨h.1, h.2.1, h.2.2⟩

/-- C5: a successful fetch that carries no listings data reports the
condition and retries immediately with no sleep; a successful fetch whose
listings yield no accepted order ends the cycle with exactly one sleep of
one `CHECK_INTERVAL`. -/
theorem C5_no_data_no_sleep (interval : ℚ) (st : CheckerState) (item : Item)
    (v : String) :
    (checkCycle interval st item (.success ⟨v, none⟩) =
      ({ st with total := st.total + 1 }, .retryNow,
       [.acquire, .fetch,
        .reportError ("No data for " ++ item.name ++ ".")])) ∧
    ∀ d : OrdersItemTopData,
      findMatch st.found_orders_ids item d.sell = none →
      checkCycle interval st item (.success ⟨v, some d⟩) =
        ({ st with total := st.total + 1 }, .sleepRetry,
         [.acquire, .fetch, .printAttempts (st.total + 1),
          .sleep interval]) := by
  refine ⟨rfl, ?_⟩
  intro d hm
  simp [checkCycle, hm]

/-- C5 witness: with no data the concrete cycle reports and retries with no
sleep; with an empty sell list it sleeps exactly one interval. -/
theorem C5_no_data_no_sleep_witness :
    (checkCycle 1 initialState demoItem (.success ⟨"0.19", none⟩) =
      ({ initialState with total := initialState.total + 1 }, .retryNow,
       [.acquire, .fetch,
        .reportError ("No data for " ++ demoItem.name ++ ".")])) ∧
    checkCycle 1 initialState demoItem (.success ⟨"0.19", some ⟨[], []⟩⟩) =
      ({ initialState with total := initialState.total + 1 }, .sleepRetry,
       [.acquire, .fetch, .printAttempts (initialState.total + 1),
        .sleep 1]) :=
  ⟨(C5_no_data_no_sleep 1 initialState demoItem "0.19").1,
   (C5_no_data_no_sleep 1 initialState demoItem "0.19").2 ⟨[], []⟩ rfl⟩

/-- C6: a run that completes normally hands back exactly the item it was
monitoring, and the scheduling loop's per-wake-up rescheduling creates
exactly one replacement task per completed task, for the same items, even
when several tasks complete in the same wake-up. -/
theorem C6_one_replacement_per_completion :
    (∀ (interval : ℚ) (st st' : CheckerState) (item it : Item)
       (frs : List FetchResult) (evs : List Event),
       check_orders interval st item frs = (st', .returned it, evs) →
       it = item) ∧
    ∀ items : List Item,
      rescheduleDone (items.map RunOutcome.returned) = some items := by
  constructor
  · intro interval st st' item it frs evs h
    exact check_orders_returned interval item frs st st' it evs h
  · intro items
    induction items with
    | nil => rfl
    | cons a t ih => simp [rescheduleDone, ih]

/-- C6 witness: the concrete completed run for `demoItem` returns
`demoItem`, and a wake-up with three simultaneous completions reschedules
exactly those three items. -/
theorem C6_one_replacement_per_completion_witness :
    demoItem = demoItem ∧
    rescheduleDone ([demoItem, demoItem, demoItem].map RunOutcome.returned)
      = some [demoItem, demoItem, demoItem] :=
  ⟨C6_one_replacement_per_completion.1 1 initialState ⟨1, ["B"]⟩ demoItem
     demoItem demoFetches
     [.acquire, .fetch, .printAttempts 1, .insertId "B", .handoff "B"] rfl,
   C6_one_replacement_per_completion.2 [demoItem, demoItem, demoItem]⟩

/-- C7: if a cycle accepts order `o`, then `o` is the earliest listing of
the sell list, in the order received, that satisfies the acceptance
predicate: the sell list splits as `l1 ++ o :: l2` with every listing of
`l1` rejected. -/
theorem C7_first_match (interval : ℚ) (st : CheckerState) (item : Item)
    (v : String) (d : OrdersItemTopData) (st' : CheckerState)
    (o : OrderWithUser) (evs : List Event)
    (h : checkCycle interval st item (.success ⟨v, some d⟩)
          = (st', .accepted o, evs)) :
    ∃ l1 l2, d.sell = l1 ++ o :: l2 ∧
      predicate_order st.found_orders_ids o item = true ∧
      ∀ x ∈ l1, predicate_order st.found_orders_ids x item = false := by
  cases hm : findMatch st.found_orders_ids item d.sell with
  | none => simp [checkCycle, hm] at h
  | some o' =>
    simp only [checkCycle, hm, Prod.mk.injEq] at h
    injection h.2.1 with ho
    subst ho
    exact findMatch_eq_some hm

/-- C7 witness: on the concrete response whose sell list is the overpriced
listing "A" followed by the acceptable listing "B", the accepted listing is
the earliest match — "A" is rejected and "B" accepted. -/
theorem C7_first_match_witness :
    ∃ l1 l2,
      (⟨[overpricedOrder, demoOrder], []⟩ : OrdersItemTopData).sell
        = l1 ++ demoOrder :: l2 ∧
      predicate_order initialState.found_orders_ids demoOrder demoItem
        = true ∧
      ∀ x ∈ l1,
        predicate_order initialState.found_orders_ids x demoItem = false :=
  C7_first_match 1 initialState demoItem "0.19"
    ⟨[overpricedOrder, demoOrder], []⟩ ⟨1, ["B"]⟩ demoOrder
    [.acquire, .fetch, .printAttempts 1, .insertId "B", .handoff "B"] rfl

/-- C9: only the sell side of the fetched order book is evaluated — the
cycle's result is unchanged under any replacement of the buy list, and any
accepted order is a member of the sell list, so a listing appearing only in
the buy list never produces a handoff. -/
theorem C9_only_sell_evaluated (interval : ℚ) (st : CheckerState)
    (item : Item) (v : String) (sell buy buy' : List OrderWithUser) :
    checkCycle interval st item (.success ⟨v, some ⟨sell, buy⟩⟩)
      = checkCycle interval st item (.success ⟨v, some ⟨sell, buy'⟩⟩) ∧
    ∀ (st' : CheckerState) (o : OrderWithUser) (evs : List Event),
      checkCycle interval st item (.success ⟨v, some ⟨sell, buy⟩⟩)
        = (st', .accepted o, evs) →
      o ∈ sell := by
  refine ⟨rfl, ?_⟩
  intro st' o evs h
  cases hm : findMatch st.found_orders_ids item sell with
  | none => simp [checkCycle, hm] at h
  | some o' =>
    simp only [checkCycle, hm, Prod.mk.injEq] at h
    injection h.2.1 with ho
    subst ho
    obtain ⟨l1, l2, hsplit, _, _⟩ := findMatch_eq_some hm
    subst hsplit
    simp

/-- C9 witness: a buy-side-only attractive listing changes nothing — the
cycle with buy list `[demoOrder]` equals the one with an empty buy list —
and the concretely accepted order lies in the sell list. -/
theorem C9_only_sell_evaluated_witness :
    checkCycle 1 initialState demoItem
        (.success ⟨"0.19", some ⟨[demoOrder], [demoOrder]⟩⟩)
      = checkCycle 1 initialState demoItem
          (.success ⟨"0.19", some ⟨[demoOrder], []⟩⟩) ∧
    demoOrder ∈ [demoOrder] :=
  ⟨(C9_only_sell_evaluated 1 initialState demoItem "0.19"
      [demoOrder] [demoOrder] []).1,
   (C9_only_sell_evaluated 1 initialState demoItem "0.19"
      [demoOrder] [demoOrder] []).2 ⟨1, ["B"]⟩ demoOrder
      [.acquire, .fetch, .printAttempts 1, .insertId "B", .handoff "B"] rfl⟩

/-- C10: a cycle whose response arrives with a non-success status code
leaves the state untouched (in particular `total` is not incremented),
retries immediately with no sleep, reports nothing, and its result is
independent of the response body (the body equals any string, the result is
the same); by contrast a successful response increments `total` even with
no data. -/
theorem C10_http_error_silent_retry (interval : ℚ) (st : CheckerState)
    (item : Item) (body v : String) :
    checkCycle interval st item (.httpError body)
      = (st, .retryNow, [.acquire, .fetch]) ∧
    (checkCycle interval st item (.success ⟨v, none⟩)).1.total
      = st.total + 1 :=
  ⟨rfl, rfl⟩

/-- C8: every listings fetch of every cycle is gated by the shared rate
limiter — each cycle's event list begins with an `acquire` immediately
followed by the `fetch` — and for the limiter as specified (R = 3 grants
per rolling window of T = 1 time unit, shared across all callers), any
time-ordered sequence of acquisition attempts yields at most `max_rate`
grants inside every sliding window of length `time_period`. -/
theorem C8_rate_limit_window (interval : ℚ) (st : CheckerState) (item : Item) :
    (∀ fr : FetchResult, ∃ rest,
      (checkCycle interval st item fr).2.2 = .acquire :: .fetch :: rest) ∧
    ∀ ts : List ℚ, ts.Pairwise (· ≤ ·) → ∀ a : ℚ,
      grantsIn time_period a (runAcquires max_rate time_period ⟨[]⟩ ts)
        ≤ max_rate := by
  constructor
  · intro fr
    cases fr with
    | timeout => exact ⟨_, rfl⟩
    | httpError body => exact ⟨_, rfl⟩
    | transportError => exact ⟨_, rfl⟩
    | success resp =>
      obtain ⟨v, data⟩ := resp
      cases data with
      | none => exact ⟨_, rfl⟩
      | some d =>
        cases hm : findMatch st.found_orders_ids item d.sell with
        | none =>
          exact ⟨[.printAttempts (st.total + 1), .sleep interval],
            by simp [checkCycle, hm]⟩
        | some o =>
          exact ⟨[.printAttempts (st.total + 1), .insertId o.id,
                  .handoff o.id],
            by simp [checkCycle, hm]⟩
  · intro ts hsort a
    apply runAcquires_window_bound max_rate time_period ts ⟨[]⟩ hsort
    · intro g hg
      simp at hg
    · intro b
      simp [grantsIn]

/-- C8 witness: a concrete cycle's events start with acquire-then-fetch,
and a concrete burst of five time-ordered attempts at times 0,0,0,1,1 never
puts more than 3 grants in any window of length 1 — in particular the
window (-1, 0]. -/
theorem C8_rate_limit_window_witness :
    (∃ rest, (checkCycle 1 initialState demoItem .timeout).2.2
      = Event.acquire :: Event.fetch :: rest) ∧
    grantsIn time_period (-1)
      (runAcquires max_rate time_period ⟨[]⟩ [0, 0, 0, 1, 1]) ≤ max_rate :=
  ⟨(C8_rate_limit_window 1 initialState demoItem).1 .timeout,
   (C8_rate_limit_window 1 initialState demoItem).2 [0, 0, 0, 1, 1]
     (by decide) (-1)⟩

end WfMarket
